import Mathlib

/-!
Verification of the concurrent PDF-conversion scheduler of the 3GPP release
fetcher (src/main.py).  Paths and filenames are modelled as Python strings,
i.e. lists of characters; the module-level priority queue, the discovery walk
of convert_docs, the worker loop of converter_worker and the final report are
embedded as executable Lean functions; the thread pool is embedded as a
step-relation on a pool state driven by an explicit interleaving schedule.
-/

/-- A filesystem path or filename, as its character sequence (a Python str). -/
abbrev Str := List Char

/-- Model of os.path.join for a relative right operand: a ++ "/" ++ b.
This is the shape taken on every join call in convert_docs (the right operand
is a walk item name, a relative subpath, or a filename, never absolute). -/
def pjoin (a b : Str) : Str := a ++ '/' :: b

/-- Model of os.path.relpath dir root, for the argument shapes produced by
os.walk root: dir is either root itself (relative path ".") or
root ++ "/" ++ suffix (relative path suffix). -/
def relpath (dir root : Str) : Str :=
  if dir = root then ['.'] else dir.drop (root.length + 1)

/-- The constant PDF output root, main.py line 19. -/
def PDF_DIR : Str := "pdfs".data

/-- Python s.lower(), character by character. -/
def lowerStr (s : Str) : Str := s.map Char.toLower

/-- Python s.endswith(t). -/
def endsWith (s t : Str) : Bool := t.isSuffixOf s

/-- The convertibility test of main.py lines 96-97:
filename.lower() ends in ".doc" or ".docx". -/
def is_convertible (filename : Str) : Bool :=
  endsWith (lowerStr filename) ".doc".data || endsWith (lowerStr filename) ".docx".data

/-- One entry of the priority queue cq, main.py line 112:
(priority, (filename, doc_path, pdf_path)) with priority = file size. -/
abbrev QItem := Nat × (Str × Str × Str)

/-- The filename field of a queue item. -/
def qname (i : QItem) : Str := i.2.1

/-- The doc_path field of a queue item. -/
def qdoc (i : QItem) : Str := i.2.2.1

/-- The pdf_path field of a queue item. -/
def qpdf (i : QItem) : Str := i.2.2.2

/-- The full comparison key of a queue item: Python compares the tuples
(priority, (filename, doc_path, pdf_path)) lexicographically, strings by
code point, so the heap order is the nested lexicographic order. -/
def qkey (i : QItem) : Lex (Nat × Lex (Str × Lex (Str × Str))) :=
  toLex (i.1, toLex (i.2.1, toLex (i.2.2.1, i.2.2.2)))

/-- The order in which heapq ranks queue entries. -/
def qle (a b : QItem) : Prop := qkey a ≤ qkey b

instance : DecidableRel qle :=
  fun a b => inferInstanceAs (Decidable (qkey a ≤ qkey b))

theorem qkey_inj {a b : QItem} (h : qkey a = qkey b) : a = b := by
  obtain ⟨k₁, f₁, d₁, p₁⟩ := a
  obtain ⟨k₂, f₂, d₂, p₂⟩ := b
  have h' : (k₁, (f₁, (d₁, p₁))) = (k₂, (f₂, (d₂, p₂))) := congrArg ofLex h
  simp only [Prod.mk.injEq] at h'
  simp [h'.1, h'.2.1, h'.2.2.1, h'.2.2.2]

instance : IsTotal QItem qle :=
  ⟨fun a b => le_total (qkey a) (qkey b)⟩

instance : IsTrans QItem qle :=
  ⟨fun _ _ _ h₁ h₂ => le_trans h₁ h₂⟩

instance : IsAntisymm QItem qle :=
  ⟨fun _ _ h₁ h₂ => qkey_inj (le_antisymm h₁ h₂)⟩

/-- cq.put: the queue is a binary heap ordered by qle; we represent the heap
by its sorted list of items, so an insertion is an ordered insertion and the
heap pop is the head. -/
def cq_put (i : QItem) (q : List QItem) : List QItem :=
  List.orderedInsert qle i q

/-- Pushing a list of items in order, each with cq.put. -/
def enqueue_all (items : List QItem) (q : List QItem) : List QItem :=
  items.foldl (fun acc i => cq_put i acc) q

/-- One file yielded by os.walk root_dir: the directory it sits in, its
filename, and its size at discovery time (getsize). -/
structure WalkFile where
  dirpath : Str
  filename : Str
  size : Nat
deriving DecidableEq

/-- Accumulator of the discovery loop of convert_docs (lines 90-112):
doc_files, pre_converted, and the global queue cq. -/
structure DiscoverySt where
  doc_files : List Str
  pre_converted : List Str
  queue : List QItem
deriving DecidableEq

/-- The doc_path computed at main.py line 100: join(dirpath, filename). -/
def doc_path_for (w : WalkFile) : Str := pjoin w.dirpath w.filename

/-- The pdf_path computed at main.py lines 104-106:
join(join(PDF_DIR, relpath(dirpath, root_dir)), filename ++ ".pdf"). -/
def pdf_path_for (root : Str) (w : WalkFile) : Str :=
  pjoin (pjoin PDF_DIR (relpath w.dirpath root)) (w.filename ++ ".pdf".data)

/-- The body of the discovery loop of convert_docs for one walked file
(main.py lines 95-112): skip non-convertible names; record every convertible
doc_path in doc_files; if the destination pdf already exists record the file
in pre_converted, otherwise push (size, (filename, doc_path, pdf_path)). -/
def discover_step (root : Str) (pdf_exists : Str → Bool) (st : DiscoverySt)
    (w : WalkFile) : DiscoverySt :=
  if is_convertible w.filename then
    let dp := doc_path_for w
    let pp := pdf_path_for root w
    if pdf_exists pp then
      { st with doc_files := st.doc_files ++ [dp],
                pre_converted := st.pre_converted ++ [dp] }
    else
      { st with doc_files := st.doc_files ++ [dp],
                queue := cq_put (w.size, (w.filename, dp, pp)) st.queue }
  else st

/-- The whole discovery walk of convert_docs, starting from the global queue
contents q0 left by any earlier in-process call (cq is a module-level global,
main.py line 21; convert_docs never clears it). -/
def discover (root : Str) (pdf_exists : Str → Bool) (walk : List WalkFile)
    (q0 : List QItem) : DiscoverySt :=
  walk.foldl (discover_step root pdf_exists) ⟨[], [], q0⟩

/-- Outcome of one post(gotenberg_url, ...) call as converter_worker sees it:
HTTP 200, a non-200 status, a raised requests.Timeout, or any other raised
network-level error such as requests.ConnectionError. -/
inductive ConvResult
  | ok
  | httpErr (code : Nat)
  | timeout
  | connError
deriving DecidableEq

/-- Observable state of one worker thread run of converter_worker:
the pop order (attempts), the shared converted list, the pdf files written,
the number of cq.task_done() calls made, and whether the thread died on an
uncaught exception. -/
structure WorkerSt where
  attempts : List QItem
  converted : List Str
  written : List Str
  task_done_count : Nat
  crashed : Bool
deriving DecidableEq

/-- A worker's state before its first pop. -/
def init_worker : WorkerSt := ⟨[], [], [], 0, false⟩

/-- converter_worker (main.py lines 134-154) run single-threadedly to the end
of its loop over a queue in pop order: pop the head, post the file; on a
raised Timeout continue WITHOUT task_done (line 144); on any other raised
exception the worker thread dies (only Timeout is caught, line 142); on
HTTP 200 write pdf_path and append doc_path to converted then task_done;
on a non-200 status just task_done. -/
def converter_worker (client : QItem → ConvResult) :
    List QItem → WorkerSt → WorkerSt
  | [], st => st
  | i :: rest, st =>
    let st' : WorkerSt := { st with attempts := st.attempts ++ [i] }
    match client i with
    | .timeout => converter_worker client rest st'
    | .connError => { st' with crashed := true }
    | .ok => converter_worker client rest
        { st' with converted := st'.converted ++ [qdoc i],
                   written := st'.written ++ [qpdf i],
                   task_done_count := st'.task_done_count + 1 }
    | .httpErr _ => converter_worker client rest
        { st' with task_done_count := st'.task_done_count + 1 }

/-- cq.join() (main.py line 123) returns exactly when unfinished_tasks,
i.e. the number of cq.put calls minus the number of cq.task_done calls,
reaches zero; once every worker has exited no further task_done can happen,
so the join returns for a finished run iff this count is zero. -/
def drain_completes (total_puts : Nat) (st : WorkerSt) : Prop :=
  st.task_done_count = total_puts

instance (n : Nat) (st : WorkerSt) : Decidable (drain_completes n st) :=
  inferInstanceAs (Decidable (st.task_done_count = n))

/-- The failed list computed at main.py line 127:
the doc_files that are in neither converted nor pre_converted. -/
def failed_of (doc_files converted pre_converted : List Str) : List Str :=
  doc_files.filter (fun x => decide (x ∉ converted ∧ x ∉ pre_converted))

/-- The fails variable of convert_docs (main.py line 82): it is initialized
to the empty list and no statement in convert_docs or converter_worker ever
appends to it. -/
def fails : List Str := []

/-- The guard of main.py line 130: the literal list of failed conversions is
printed iff len(fails) > 0. -/
def prints_failed_list : Bool := decide (0 < fails.length)

/-- A conversion client that always succeeds with HTTP 200. -/
def ok_client : QItem → ConvResult := fun _ => ConvResult.ok

/-- A conversion client stub that always raises requests.Timeout. -/
def timeout_client : QItem → ConvResult := fun _ => ConvResult.timeout

/-! ### Lemmas about the worker loop -/

theorem converter_worker_attempts (client : QItem → ConvResult)
    (hnc : ∀ i, client i ≠ ConvResult.connError) :
    ∀ q st, (converter_worker client q st).attempts = st.attempts ++ q := by
  intro q
  induction q with
  | nil => intro st; simp [converter_worker]
  | cons i rest ih =>
    intro st
    cases hc : client i with
    | timeout => simp [converter_worker, hc, ih]
    | connError => exact absurd hc (hnc i)
    | ok => simp [converter_worker, hc, ih]
    | httpErr code => simp [converter_worker, hc, ih]

theorem converter_worker_attempts_prefix (client : QItem → ConvResult) :
    ∀ q st, ∃ p t, p ++ t = q ∧
      (converter_worker client q st).attempts = st.attempts ++ p := by
  intro q
  induction q with
  | nil => intro st; exact ⟨[], [], rfl, by simp [converter_worker]⟩
  | cons i rest ih =>
    intro st
    cases hc : client i with
    | timeout =>
      obtain ⟨p, t, hpt, hat⟩ := ih { st with attempts := st.attempts ++ [i] }
      exact ⟨i :: p, t, by simp [hpt], by simp [converter_worker, hc, hat]⟩
    | connError =>
      exact ⟨[i], rest, rfl, by simp [converter_worker, hc]⟩
    | ok =>
      obtain ⟨p, t, hpt, hat⟩ := ih { st with
        attempts := st.attempts ++ [i], converted := st.converted ++ [qdoc i],
        written := st.written ++ [qpdf i], task_done_count := st.task_done_count + 1 }
      exact ⟨i :: p, t, by simp [hpt], by simp [converter_worker, hc, hat]⟩
    | httpErr code =>
      obtain ⟨p, t, hpt, hat⟩ := ih { st with
        attempts := st.attempts ++ [i], task_done_count := st.task_done_count + 1 }
      exact ⟨i :: p, t, by simp [hpt], by simp [converter_worker, hc, hat]⟩

theorem converter_worker_converted (client : QItem → ConvResult)
    (hnc : ∀ i, client i ≠ ConvResult.connError) :
    ∀ q st, (converter_worker client q st).converted
      = st.converted ++ (q.filter (fun i => decide (client i = ConvResult.ok))).map qdoc := by
  intro q
  induction q with
  | nil => intro st; simp [converter_worker]
  | cons i rest ih =>
    intro st
    cases hc : client i with
    | timeout => simp [converter_worker, hc, ih]
    | connError => exact absurd hc (hnc i)
    | ok => simp [converter_worker, hc, ih]
    | httpErr code => simp [converter_worker, hc, ih]

theorem converter_worker_written (client : QItem → ConvResult)
    (hnc : ∀ i, client i ≠ ConvResult.connError) :
    ∀ q st, (converter_worker client q st).written
      = st.written ++ (q.filter (fun i => decide (client i = ConvResult.ok))).map qpdf := by
  intro q
  induction q with
  | nil => intro st; simp [converter_worker]
  | cons i rest ih =>
    intro st
    cases hc : client i with
    | timeout => simp [converter_worker, hc, ih]
    | connError => exact absurd hc (hnc i)
    | ok => simp [converter_worker, hc, ih]
    | httpErr code => simp [converter_worker, hc, ih]

theorem ok_client_no_crash : ∀ i, ok_client i ≠ ConvResult.connError := by
  intro i h
  exact ConvResult.noConfusion h

theorem converter_worker_converted_ok :
    ∀ q st, (converter_worker ok_client q st).converted = st.converted ++ q.map qdoc := by
  intro q st
  rw [converter_worker_converted ok_client ok_client_no_crash]
  simp [ok_client, List.filter_true]

theorem converter_worker_written_ok :
    ∀ q st, (converter_worker ok_client q st).written = st.written ++ q.map qpdf := by
  intro q st
  rw [converter_worker_written ok_client ok_client_no_crash]
  simp [ok_client, List.filter_true]

/-! ### Pure mirrors of the discovery loop -/

/-- The doc_files list collected by the walk of convert_docs. -/
def docs_of : List WalkFile → List Str
  | [] => []
  | w :: ws => (if is_convertible w.filename then [doc_path_for w] else []) ++ docs_of ws

/-- The pre_converted list collected by the walk of convert_docs. -/
def pres_of (root : Str) (pe : Str → Bool) : List WalkFile → List Str
  | [] => []
  | w :: ws =>
    (if is_convertible w.filename && pe (pdf_path_for root w)
     then [doc_path_for w] else []) ++ pres_of root pe ws

/-- The queue entries pushed by the walk of convert_docs, in walk order. -/
def enqueued_of (root : Str) (pe : Str → Bool) : List WalkFile → List QItem
  | [] => []
  | w :: ws =>
    (if is_convertible w.filename && !(pe (pdf_path_for root w))
     then [(w.size, (w.filename, doc_path_for w, pdf_path_for root w))] else [])
    ++ enqueued_of root pe ws

theorem discover_fold (root : Str) (pe : Str → Bool) :
    ∀ (walk : List WalkFile) (st : DiscoverySt),
      (walk.foldl (discover_step root pe) st).doc_files = st.doc_files ++ docs_of walk
      ∧ (walk.foldl (discover_step root pe) st).pre_converted
          = st.pre_converted ++ pres_of root pe walk
      ∧ List.Perm (walk.foldl (discover_step root pe) st).queue
          (enqueued_of root pe walk ++ st.queue) := by
  intro walk
  induction walk with
  | nil => intro st; simp [docs_of, pres_of, enqueued_of]
  | cons w ws ih =>
    intro st
    by_cases hc : is_convertible w.filename
    · by_cases hp : pe (pdf_path_for root w)
      · have := ih { st with doc_files := st.doc_files ++ [doc_path_for w],
                             pre_converted := st.pre_converted ++ [doc_path_for w] }
        refine ⟨?_, ?_, ?_⟩
        · simpa [discover_step, hc, hp, docs_of] using this.1
        · simpa [discover_step, hc, hp, pres_of] using this.2.1
        · simpa [discover_step, hc, hp, enqueued_of] using this.2.2
      · have := ih { st with doc_files := st.doc_files ++ [doc_path_for w],
                             queue := cq_put (w.size, (w.filename, doc_path_for w,
                               pdf_path_for root w)) st.queue }
        refine ⟨?_, ?_, ?_⟩
        · simpa [discover_step, hc, hp, docs_of] using this.1
        · simpa [discover_step, hc, hp, pres_of] using this.2.1
        · have h2 := this.2.2
          have hstep : discover_step root pe st w
              = ⟨st.doc_files ++ [doc_path_for w], st.pre_converted,
                  cq_put (w.size, (w.filename, doc_path_for w,
                    pdf_path_for root w)) st.queue⟩ := by
            simp [discover_step, hc, hp]
          have henq : enqueued_of root pe (w :: ws)
              = (w.size, (w.filename, doc_path_for w, pdf_path_for root w))
                  :: enqueued_of root pe ws := by
            simp [enqueued_of, hc, hp]
          rw [List.foldl_cons, hstep, henq]
          refine h2.trans ?_
          exact (List.Perm.append_left _ (List.perm_orderedInsert qle _ _)).trans
            List.perm_middle
    · have := ih st
      refine ⟨?_, ?_, ?_⟩
      · simpa [discover_step, hc, docs_of] using this.1
      · simpa [discover_step, hc, pres_of] using this.2.1
      · simpa [discover_step, hc, enqueued_of] using this.2.2

theorem discover_doc_files (root : Str) (pe : Str → Bool) (walk : List WalkFile)
    (q0 : List QItem) : (discover root pe walk q0).doc_files = docs_of walk := by
  simpa using (discover_fold root pe walk ⟨[], [], q0⟩).1

theorem discover_pre_converted (root : Str) (pe : Str → Bool) (walk : List WalkFile)
    (q0 : List QItem) : (discover root pe walk q0).pre_converted = pres_of root pe walk := by
  simpa using (discover_fold root pe walk ⟨[], [], q0⟩).2.1

theorem discover_queue_perm (root : Str) (pe : Str → Bool) (walk : List WalkFile)
    (q0 : List QItem) :
    List.Perm (discover root pe walk q0).queue (enqueued_of root pe walk ++ q0) :=
  (discover_fold root pe walk ⟨[], [], q0⟩).2.2

theorem discover_queue_sorted (root : Str) (pe : Str → Bool) :
    ∀ (walk : List WalkFile) (st : DiscoverySt), st.queue.Sorted qle →
      ((walk.foldl (discover_step root pe) st).queue).Sorted qle := by
  intro walk
  induction walk with
  | nil => intro st h; simpa using h
  | cons w ws ih =>
    intro st h
    by_cases hc : is_convertible w.filename
    · by_cases hp : pe (pdf_path_for root w)
      · exact ih _ (by simpa [discover_step, hc, hp] using h)
      · refine ih _ ?_
        simp only [discover_step, hc, hp, if_true, if_false]
        exact List.Sorted.orderedInsert _ _ h
    · exact ih _ (by simpa [discover_step, hc] using h)

theorem docs_perm_pres_append_enqueued (root : Str) (pe : Str → Bool) :
    ∀ walk, List.Perm (docs_of walk)
      (pres_of root pe walk ++ (enqueued_of root pe walk).map qdoc) := by
  intro walk
  induction walk with
  | nil => simp [docs_of, pres_of, enqueued_of]
  | cons w ws ih =>
    by_cases hc : is_convertible w.filename
    · by_cases hp : pe (pdf_path_for root w)
      · simpa [docs_of, pres_of, enqueued_of, hc, hp] using ih.cons (doc_path_for w)
      · simp only [docs_of, pres_of, enqueued_of, hc, hp, Bool.true_and, Bool.not_false,
          if_true, if_false, Bool.false_and]
        simp only [if_pos rfl, List.singleton_append, List.nil_append, List.map_cons]
        exact (ih.cons _).trans List.perm_middle.symm
    · simpa [docs_of, pres_of, enqueued_of, hc] using ih

theorem mem_enqueued_of (root : Str) (pe : Str → Bool) :
    ∀ (walk : List WalkFile) (w : WalkFile), w ∈ walk →
      is_convertible w.filename = true → pe (pdf_path_for root w) = false →
      (w.size, (w.filename, doc_path_for w, pdf_path_for root w))
        ∈ enqueued_of root pe walk := by
  intro walk
  induction walk with
  | nil => intro w hw; exact absurd hw (List.not_mem_nil w)
  | cons v ws ih =>
    intro w hw hc hp
    rcases List.mem_cons.mp hw with rfl | hw'
    · simp [enqueued_of, hc, hp]
    · exact List.mem_append_right _ (ih w hw' hc hp)

theorem qle_size_le {a b : QItem} (h : qle a b) : a.1 ≤ b.1 := by
  unfold qle qkey at h
  rcases (Prod.Lex.le_iff ..).mp h with h' | h'
  · exact le_of_lt h'
  · exact le_of_eq h'.1

theorem enqueue_all_sorted :
    ∀ (items q : List QItem), q.Sorted qle → (enqueue_all items q).Sorted qle := by
  intro items
  induction items with
  | nil => intro q h; exact h
  | cons i rest ih =>
    intro q h
    exact ih (cq_put i q) (List.Sorted.orderedInsert _ _ h)

theorem enqueue_all_perm :
    ∀ (items q : List QItem), List.Perm (enqueue_all items q) (items ++ q) := by
  intro items
  induction items with
  | nil => intro q; simp [enqueue_all]
  | cons i rest ih =>
    intro q
    have h1 : enqueue_all (i :: rest) q = enqueue_all rest (cq_put i q) := rfl
    rw [h1]
    refine (ih (cq_put i q)).trans ?_
    refine (List.Perm.append_left rest (List.perm_orderedInsert qle i q)).trans ?_
    exact List.perm_middle

theorem discover_all_pre (root : Str) (pe : Str → Bool) :
    ∀ (walk : List WalkFile) (st : DiscoverySt),
      (∀ w ∈ walk, is_convertible w.filename = true → pe (pdf_path_for root w) = true) →
      walk.foldl (discover_step root pe) st
        = ⟨st.doc_files ++ docs_of walk, st.pre_converted ++ docs_of walk, st.queue⟩ := by
  intro walk
  induction walk with
  | nil => intro st _; simp [docs_of]
  | cons w ws ih =>
    intro st hall
    by_cases hc : is_convertible w.filename
    · have hp : pe (pdf_path_for root w) = true := hall w (List.mem_cons_self w ws) hc
      rw [List.foldl_cons, ih _ (fun v hv => hall v (List.mem_cons_of_mem w hv))]
      simp [discover_step, hc, hp, docs_of]
    · rw [List.foldl_cons, ih _ (fun v hv => hall v (List.mem_cons_of_mem w hv))]
      simp [discover_step, hc, docs_of]

/-! ### Concrete scenarios shared by several claims -/

/-- A walk of the source tree with a single convertible file a.doc of size 7
directly under the root downloads/18. -/
def walk1 : List WalkFile := [⟨"downloads/18".data, "a.doc".data, 7⟩]

/-- The discovery of walk1 with no pre-existing pdfs. -/
def walk1_discovery : DiscoverySt := discover "downloads/18".data (fun _ => false) walk1 []

/-- C2 (code bug witness evaluation): with a client that always raises
requests.Timeout, the single worker pops the one pending item, catches the
Timeout, and continues WITHOUT calling cq.task_done() (main.py line 144), so
the number of task_done calls stays 0 while one put is outstanding:
unfinished_tasks never reaches 0, cq.join() at line 123 never returns,
converted stays empty but the failed list is never computed and the report is
never reached — the run hangs instead of reaching the Reported state. -/
theorem c2_timeout_run_never_drains :
    walk1_discovery.queue.length = 1
    ∧ (converter_worker timeout_client walk1_discovery.queue init_worker).converted = []
    ∧ (converter_worker timeout_client walk1_discovery.queue init_worker).attempts.length = 1
    ∧ (converter_worker timeout_client walk1_discovery.queue init_worker).task_done_count = 0
    ∧ ¬ drain_completes walk1_discovery.queue.length
        (converter_worker timeout_client walk1_discovery.queue init_worker) := by
  decide

/-- A one-item queue as convert_docs would build it for walk1. -/
def c4_queue : List QItem :=
  [(7, ("a.doc".data, "downloads/18/a.doc".data, "pdfs/./a.doc.pdf".data))]

/-- C4 (code bug witness evaluation): converter_worker catches only
requests.Timeout (main.py line 142).  A network-level error such as
requests.ConnectionError raised by post propagates out of the worker loop and
terminates the worker thread: the worker crashes, with no task_done for the
popped item.  A raised Timeout or a non-200 status, by contrast, does not
crash the worker. -/
theorem c4_connection_error_crashes_worker :
    (converter_worker (fun _ => ConvResult.connError) c4_queue init_worker).crashed = true
    ∧ (converter_worker (fun _ => ConvResult.connError) c4_queue init_worker).task_done_count = 0
    ∧ (converter_worker timeout_client c4_queue init_worker).crashed = false
    ∧ (converter_worker (fun _ => ConvResult.httpErr 500) c4_queue init_worker).crashed = false := by
  decide

/-- A conversion client stub that always answers with HTTP status 500. -/
def err_client : QItem → ConvResult := fun _ => ConvResult.httpErr 500

/-- C5 (code bug witness evaluation): in a run in which the only conversion
fails (non-200 status), the failed list computed at main.py line 127 is
nonempty, yet the guard at line 130 tests fails — a variable that is
initialized to the empty list and never appended to — so the literal list of
failed source paths is never printed. -/
theorem c5_failed_list_never_printed :
    failed_of walk1_discovery.doc_files
        (converter_worker err_client walk1_discovery.queue init_worker).converted
        walk1_discovery.pre_converted = ["downloads/18/a.doc".data]
    ∧ prints_failed_list = false := by
  decide

/-- C8 (confirmed): for every source file in the directory root ++ "/" ++ rel,
the destination is the pdfs output root, then the same relative directory rel,
then the original filename with ".pdf" appended (the original extension is
kept, not replaced); in particular root/A/B/doc1.doc, whose name is
convertible, maps to pdfs/A/B/doc1.doc.pdf. -/
theorem c8_dest_path_mirrors_tree :
    (∀ (root rel filename : Str) (sz : Nat),
      pdf_path_for root ⟨root ++ '/' :: rel, filename, sz⟩
        = PDF_DIR ++ '/' :: (rel ++ '/' :: (filename ++ ".pdf".data)))
    ∧ is_convertible "doc1.doc".data = true
    ∧ pdf_path_for "root".data ⟨"root/A/B".data, "doc1.doc".data, 0⟩
        = "pdfs/A/B/doc1.doc.pdf".data := by
  refine ⟨?_, by decide, by decide⟩
  intro root rel filename sz
  have hne : root ++ '/' :: rel ≠ root := by
    intro h
    have hlen := congrArg List.length h
    simp at hlen
  have hd : (root ++ '/' :: rel).drop (root.length + 1) = rel := by
    have hsplit : root ++ '/' :: rel = (root ++ ['/']) ++ rel := by simp
    have hl : root.length + 1 = (root ++ ['/']).length := by simp
    rw [hsplit, hl, List.drop_left]
  simp [pdf_path_for, pjoin, relpath, hne, hd]

/-- The walk of claim C6: three convertible files of sizes 500, 10 and 300,
fed to the queue in that order. -/
def c6_walk : List WalkFile :=
  [⟨"downloads/18".data, "a.doc".data, 500⟩,
   ⟨"downloads/18".data, "b.doc".data, 10⟩,
   ⟨"downloads/18".data, "c.doc".data, 300⟩]

/-- C6 (confirmed): a single worker pops from the head of the heap, so for any
discovered set of items the sequence of conversion attempts is sorted by
ascending priority (file size) — each pop takes an item whose size is minimal
among the items still queued — and for the sizes 500, 10, 300 the attempts
happen in the order 10, 300, 500. -/
theorem c6_pops_ascending_size :
    (∀ (root : Str) (pe : Str → Bool) (walk : List WalkFile) (client : QItem → ConvResult),
      ((converter_worker client (discover root pe walk []).queue init_worker).attempts).Sorted
        (fun a b : QItem => a.1 ≤ b.1))
    ∧ ((converter_worker ok_client
        (discover "downloads/18".data (fun _ => false) c6_walk []).queue
        init_worker).attempts).map Prod.fst = [10, 300, 500] := by
  constructor
  · intro root pe walk client
    obtain ⟨p, t, hpt, hat⟩ :=
      converter_worker_attempts_prefix client (discover root pe walk []).queue init_worker
    rw [hat]
    have hsq : ((discover root pe walk []).queue).Sorted qle :=
      discover_queue_sorted root pe walk ⟨[], [], []⟩ (by simp)
    have hsub : p.Sublist (discover root pe walk []).queue := by
      rw [← hpt]
      exact List.sublist_append_left p t
    have hsp : p.Sorted qle := hsq.sublist hsub
    have : p.Sorted (fun a b : QItem => a.1 ≤ b.1) :=
      List.Pairwise.imp (fun h => qle_size_le h) hsp
    simpa [init_worker] using this
  · decide

/-- The first in-process call of claim C9: it discovers walk1 (one pending
file) and pushes one item onto the module-level queue; its workers are never
run, so the item is never popped or acknowledged. -/
def c9_call1 : DiscoverySt := discover "downloads/18".data (fun _ => false) walk1 []

/-- The later in-process call of claim C9: a convert_docs invocation for a
release whose walk finds nothing, starting from the global queue contents
left by the first call. -/
def c9_call2 : DiscoverySt := discover "downloads/19".data (fun _ => false) [] c9_call1.queue

/-- C9 (confirmed): cq is one module-level queue shared by every call of
convert_docs in the process.  Discovery never clears it: the queue after any
call's walk is a permutation of the newly pushed items together with the
whole queue it started from, so items left by an earlier call remain pending;
concretely, the second call starts with the first call's unacknowledged item
still queued, its worker's first (and only) pop returns that leftover item
even though its own walk found nothing, and its drain barrier completes only
once that item is acknowledged. -/
theorem c9_global_queue_shared :
    (∀ (root : Str) (pe : Str → Bool) (walk : List WalkFile) (q0 : List QItem),
      List.Perm (discover root pe walk q0).queue (enqueued_of root pe walk ++ q0))
    ∧ c9_call1.queue
        = [(7, ("a.doc".data, "downloads/18/a.doc".data, "pdfs/./a.doc.pdf".data))]
    ∧ c9_call2.queue = c9_call1.queue
    ∧ (converter_worker ok_client c9_call2.queue init_worker).attempts = c9_call1.queue
    ∧ ¬ drain_completes c9_call2.queue.length init_worker
    ∧ drain_completes c9_call2.queue.length
        (converter_worker ok_client c9_call2.queue init_worker) := by
  refine ⟨?_, by decide, by decide, by decide, by decide, by decide⟩
  intro root pe walk q0
  exact discover_queue_perm root pe walk q0

/-- C10 (confirmed): the heap orders items by the full tuple
(priority, (filename, doc_path, pdf_path)), so a single worker's attempt
sequence is sorted by qle — for equal sizes the payload tuples decide, in
lexicographic string order; the attempt sequence is the same for any two
insertion orders of the same items (fully deterministic in the item set); and
two items of equal size pushed in the order b-then-a are attempted a-then-b,
not in insertion order. -/
theorem c10_tie_break_lex_deterministic :
    (∀ items : List QItem,
      ((converter_worker ok_client (enqueue_all items []) init_worker).attempts).Sorted qle)
    ∧ (∀ l₁ l₂ : List QItem, List.Perm l₁ l₂ →
        (converter_worker ok_client (enqueue_all l₁ []) init_worker).attempts
          = (converter_worker ok_client (enqueue_all l₂ []) init_worker).attempts)
    ∧ (converter_worker ok_client
        (enqueue_all [(5, ("b.doc".data, "b".data, "bp".data)),
                      (5, ("a.doc".data, "a".data, "ap".data))] []) init_worker).attempts
        = [(5, ("a.doc".data, "a".data, "ap".data)),
           (5, ("b.doc".data, "b".data, "bp".data))] := by
  refine ⟨?_, ?_, by decide⟩
  · intro items
    rw [converter_worker_attempts ok_client ok_client_no_crash]
    simpa [init_worker] using enqueue_all_sorted items [] (by simp)
  · intro l₁ l₂ hp
    rw [converter_worker_attempts ok_client ok_client_no_crash,
        converter_worker_attempts ok_client ok_client_no_crash]
    have h₁ : List.Perm (enqueue_all l₁ []) (enqueue_all l₂ []) := by
      refine ((enqueue_all_perm l₁ []).trans ?_).trans (enqueue_all_perm l₂ []).symm
      simpa using hp
    have hs₁ : (enqueue_all l₁ []).Sorted qle := enqueue_all_sorted l₁ [] (by simp)
    have hs₂ : (enqueue_all l₂ []).Sorted qle := enqueue_all_sorted l₂ [] (by simp)
    rw [List.eq_of_perm_of_sorted h₁ hs₁ hs₂]

/-- Witness for C10: the determinism conjunct applied to a concrete pair of
insertion orders of the same two equal-priority items. -/
theorem c10_tie_break_lex_deterministic_witness :
    (converter_worker ok_client
        (enqueue_all [(5, ("b.doc".data, "b".data, "bp".data)),
                      (5, ("a.doc".data, "a".data, "ap".data))] []) init_worker).attempts
      = (converter_worker ok_client
          (enqueue_all [(5, ("a.doc".data, "a".data, "ap".data)),
                        (5, ("b.doc".data, "b".data, "bp".data))] []) init_worker).attempts :=
  c10_tie_break_lex_deterministic.2.1 _ _ (by decide)

/-- C1 (confirmed): for any completed run — any walk, any initial pdf set,
any per-item client outcome among success, non-200 and timeout (a
connection-error run kills its worker and never reaches line 127) — the
converted list collects exactly the successfully converted queue items, and
line 127 defines failed as the discovered doc_files that are in neither
converted nor pre_converted, so the three result sets are pairwise disjoint
and their sizes add up to the number of convertible files discovered. -/
theorem c1_result_sets_partition (root : Str) (pe : Str → Bool) (walk : List WalkFile)
    (client : QItem → ConvResult)
    (hnc : ∀ i, client i ≠ ConvResult.connError)
    (hnd : (discover root pe walk []).doc_files.Nodup) :
    ((converter_worker client (discover root pe walk []).queue init_worker).converted).length
        + ((discover root pe walk []).pre_converted).length
        + (failed_of (discover root pe walk []).doc_files
            ((converter_worker client (discover root pe walk []).queue init_worker).converted)
            ((discover root pe walk []).pre_converted)).length
      = ((discover root pe walk []).doc_files).length
    ∧ List.Disjoint
        ((converter_worker client (discover root pe walk []).queue init_worker).converted)
        ((discover root pe walk []).pre_converted)
    ∧ List.Disjoint
        ((converter_worker client (discover root pe walk []).queue init_worker).converted)
        (failed_of (discover root pe walk []).doc_files
          ((converter_worker client (discover root pe walk []).queue init_worker).converted)
          ((discover root pe walk []).pre_converted))
    ∧ List.Disjoint ((discover root pe walk []).pre_converted)
        (failed_of (discover root pe walk []).doc_files
          ((converter_worker client (discover root pe walk []).queue init_worker).converted)
          ((discover root pe walk []).pre_converted)) := by
  set D := discover root pe walk [] with hD
  set conv := (converter_worker client D.queue init_worker).converted with hconv_def
  set qd := D.queue.map qdoc with hqd
  have hconv : conv = (D.queue.filter (fun i => decide (client i = ConvResult.ok))).map qdoc := by
    rw [hconv_def, converter_worker_converted client hnc]
    simp [init_worker]
  have hqperm : List.Perm D.queue (enqueued_of root pe walk) := by
    simpa using discover_queue_perm root pe walk []
  have hdocs_eq : D.doc_files = docs_of walk := discover_doc_files root pe walk []
  have hpre_eq : D.pre_converted = pres_of root pe walk := discover_pre_converted root pe walk []
  have hdp : List.Perm D.doc_files (D.pre_converted ++ qd) := by
    rw [hdocs_eq, hpre_eq, hqd]
    exact (docs_perm_pres_append_enqueued root pe walk).trans
      (List.Perm.append_left _ (hqperm.map qdoc).symm)
  have hnd2 : (D.pre_converted ++ qd).Nodup := hdp.nodup hnd
  obtain ⟨hnpre, hnqd, hdisjpq⟩ := List.nodup_append.mp hnd2
  have hsubc : conv.Sublist qd := by
    rw [hconv, hqd]
    exact (List.filter_sublist D.queue).map qdoc
  have hd1 : List.Disjoint conv D.pre_converted := fun a hac hap =>
    hdisjpq hap (hsubc.subset hac)
  have hmemconv : ∀ i ∈ D.queue, (qdoc i ∈ conv ↔ client i = ConvResult.ok) := by
    intro i hi
    constructor
    · intro hmem
      rw [hconv] at hmem
      obtain ⟨j, hj, hji⟩ := List.mem_map.mp hmem
      obtain ⟨hjq, hjok⟩ := List.mem_filter.mp hj
      have hji2 : j = i := List.inj_on_of_nodup_map (hqd ▸ hnqd) hjq hi hji
      rw [← hji2]
      exact of_decide_eq_true hjok
    · intro hok
      rw [hconv]
      exact List.mem_map_of_mem qdoc (List.mem_filter.mpr ⟨hi, by simp [hok]⟩)
  have hfail : failed_of D.doc_files conv D.pre_converted
      = D.doc_files.filter (fun x => decide (x ∉ conv ∧ x ∉ D.pre_converted)) := rfl
  have hd2 : List.Disjoint conv (failed_of D.doc_files conv D.pre_converted) := by
    intro a hac haf
    rw [hfail] at haf
    exact (of_decide_eq_true (List.mem_filter.mp haf).2).1 hac
  have hd3 : List.Disjoint D.pre_converted (failed_of D.doc_files conv D.pre_converted) := by
    intro a hap haf
    rw [hfail] at haf
    exact (of_decide_eq_true (List.mem_filter.mp haf).2).2 hap
  refine ⟨?_, hd1, hd2, hd3⟩
  have hfperm : List.Perm (failed_of D.doc_files conv D.pre_converted)
      ((D.pre_converted ++ qd).filter (fun x => decide (x ∉ conv ∧ x ∉ D.pre_converted))) := by
    rw [hfail]
    exact hdp.filter _
  have hprefilter : D.pre_converted.filter
      (fun x => decide (x ∉ conv ∧ x ∉ D.pre_converted)) = [] := by
    refine List.filter_eq_nil_iff.mpr ?_
    intro a ha
    simp [ha]
  have hqdfilter : qd.filter (fun x => decide (x ∉ conv ∧ x ∉ D.pre_converted))
      = qd.filter (fun x => decide (x ∉ conv)) := by
    refine List.filter_congr ?_
    intro x hx
    have hxp : x ∉ D.pre_converted := fun hp => hdisjpq hp hx
    exact decide_eq_decide.mpr (and_iff_left hxp)
  have hqdfilter2 : qd.filter (fun x => decide (x ∉ conv))
      = (D.queue.filter (fun i => !(decide (client i = ConvResult.ok)))).map qdoc := by
    rw [hqd, List.filter_map]
    congr 1
    refine List.filter_congr ?_
    intro i hi
    simp only [Function.comp]
    rw [decide_not]
    congr 1
    exact decide_eq_decide.mpr (hmemconv i hi)
  have hlen_fail : (failed_of D.doc_files conv D.pre_converted).length
      = (D.queue.filter (fun i => !(decide (client i = ConvResult.ok)))).length := by
    rw [hfperm.length_eq, List.filter_append, hprefilter, hqdfilter, hqdfilter2]
    simp
  have hlen_conv : conv.length
      = (D.queue.filter (fun i => decide (client i = ConvResult.ok))).length := by
    rw [hconv, List.length_map]
  have hsplit : (D.queue.filter (fun i => decide (client i = ConvResult.ok))).length
      + (D.queue.filter (fun i => !(decide (client i = ConvResult.ok)))).length
      = D.queue.length := by
    have := (List.filter_append_perm
      (fun i => decide (client i = ConvResult.ok)) D.queue).length_eq
    simpa using this
  have hlen_docs : D.doc_files.length = D.pre_converted.length + D.queue.length := by
    rw [hdp.length_eq, List.length_append, hqd, List.length_map]
  omega

/-- The walk of the C1 witness run: three convertible files and one
non-convertible file, one of the convertible ones already converted. -/
def c1w_walk : List WalkFile :=
  [⟨"downloads/18".data, "a.doc".data, 1⟩,
   ⟨"downloads/18".data, "b.doc".data, 2⟩,
   ⟨"downloads/18".data, "nope.txt".data, 3⟩,
   ⟨"downloads/18".data, "c.doc".data, 4⟩]

/-- The pdf files existing before the C1 witness run: b.doc is pre-converted. -/
def c1w_pe : Str → Bool := fun p => p == "pdfs/./b.doc.pdf".data

/-- The client of the C1 witness run: the size-4 item (c.doc) fails with a
non-200 status, everything else succeeds. -/
def c1w_client : QItem → ConvResult :=
  fun i => if i.1 = 4 then ConvResult.httpErr 500 else ConvResult.ok

/-- Witness for C1: both hypotheses hold for the concrete run of c1w_walk —
the client never raises a connection error, and the discovered doc_files are
distinct — and the theorem then yields the size partition. -/
theorem c1_result_sets_partition_witness :
    ((∀ i, c1w_client i ≠ ConvResult.connError)
      ∧ (discover "downloads/18".data c1w_pe c1w_walk []).doc_files.Nodup)
    ∧ ((converter_worker c1w_client
          (discover "downloads/18".data c1w_pe c1w_walk []).queue init_worker).converted).length
        + ((discover "downloads/18".data c1w_pe c1w_walk []).pre_converted).length
        + (failed_of (discover "downloads/18".data c1w_pe c1w_walk []).doc_files
            ((converter_worker c1w_client
              (discover "downloads/18".data c1w_pe c1w_walk []).queue init_worker).converted)
            ((discover "downloads/18".data c1w_pe c1w_walk []).pre_converted)).length
      = ((discover "downloads/18".data c1w_pe c1w_walk []).doc_files).length :=
  ⟨⟨fun i => by by_cases h : i.1 = 4 <;> simp [c1w_client, h], by decide⟩,
   (c1_result_sets_partition "downloads/18".data c1w_pe c1w_walk c1w_client
      (fun i => by by_cases h : i.1 = 4 <;> simp [c1w_client, h]) (by decide)).1⟩

/-- The discovery phase of the first batch run of claim C7, against the pdf
files pdfs1 existing on disk before the run. -/
def run1_discovery (root : Str) (pdfs1 : List Str) (walk : List WalkFile) : DiscoverySt :=
  discover root (fun p => decide (p ∈ pdfs1)) walk []

/-- The worker phase of the first batch run of claim C7, with a conversion
service that succeeds on every item. -/
def run1_worker (root : Str) (pdfs1 : List Str) (walk : List WalkFile) : WorkerSt :=
  converter_worker ok_client (run1_discovery root pdfs1 walk).queue init_worker

/-- The pdf files on disk after the first run: the initial ones plus every
destination file written by a successful conversion. -/
def pdfs_after (root : Str) (pdfs1 : List Str) (walk : List WalkFile) : Str → Bool :=
  fun p => decide (p ∈ pdfs1) || decide (p ∈ (run1_worker root pdfs1 walk).written)

/-- The discovery phase of the second batch run of claim C7, over the same
source tree and output root, against the post-first-run pdf files. -/
def run2_discovery (root : Str) (pdfs1 : List Str) (walk : List WalkFile) : DiscoverySt :=
  discover root (pdfs_after root pdfs1 walk) walk []

/-- C7 (confirmed): a file is skipped exactly when its destination pdf
already exists, and a successful conversion writes that destination, so a
second run over the same tree with a succeeding service pre-converts every
discovered convertible file: its pre_converted equals the first run's
doc_files, which as a set is the union of the first run's converted and
pre_converted; its queue is empty and it converts nothing. -/
theorem c7_second_run_preconverts_all (root : Str) (pdfs1 : List Str) (walk : List WalkFile) :
    (run2_discovery root pdfs1 walk).pre_converted
        = (run1_discovery root pdfs1 walk).doc_files
    ∧ (∀ x, x ∈ (run2_discovery root pdfs1 walk).pre_converted ↔
        x ∈ (run1_worker root pdfs1 walk).converted
          ∨ x ∈ (run1_discovery root pdfs1 walk).pre_converted)
    ∧ (run2_discovery root pdfs1 walk).queue = []
    ∧ (converter_worker ok_client (run2_discovery root pdfs1 walk).queue
        init_worker).converted = [] := by
  have hall : ∀ w ∈ walk, is_convertible w.filename = true →
      pdfs_after root pdfs1 walk (pdf_path_for root w) = true := by
    intro w hw hc
    unfold pdfs_after
    by_cases h1 : pdf_path_for root w ∈ pdfs1
    · simp [h1]
    · have hpe : (fun p => decide (p ∈ pdfs1)) (pdf_path_for root w) = false := by
        simp [h1]
      have hmem := mem_enqueued_of root (fun p => decide (p ∈ pdfs1)) walk w hw hc hpe
      have hwritten : (run1_worker root pdfs1 walk).written
          = (run1_discovery root pdfs1 walk).queue.map qpdf := by
        unfold run1_worker
        rw [converter_worker_written_ok]
        simp [init_worker]
      have hqperm : List.Perm (run1_discovery root pdfs1 walk).queue
          (enqueued_of root (fun p => decide (p ∈ pdfs1)) walk) := by
        simpa using discover_queue_perm root (fun p => decide (p ∈ pdfs1)) walk []
      have hpw : pdf_path_for root w ∈ (run1_worker root pdfs1 walk).written := by
        rw [hwritten]
        refine (hqperm.map qpdf).mem_iff.mpr ?_
        exact List.mem_map.mpr ⟨_, hmem, rfl⟩
      simp [hpw]
  have hrun2 : run2_discovery root pdfs1 walk = ⟨docs_of walk, docs_of walk, []⟩ := by
    unfold run2_discovery discover
    rw [discover_all_pre root _ walk ⟨[], [], []⟩ hall]
    simp
  have hdocs1 : (run1_discovery root pdfs1 walk).doc_files = docs_of walk :=
    discover_doc_files root _ walk []
  have hpre1 : (run1_discovery root pdfs1 walk).pre_converted
      = pres_of root (fun p => decide (p ∈ pdfs1)) walk :=
    discover_pre_converted root _ walk []
  have hconv1 : (run1_worker root pdfs1 walk).converted
      = (run1_discovery root pdfs1 walk).queue.map qdoc := by
    unfold run1_worker
    rw [converter_worker_converted_ok]
    simp [init_worker]
  have hqperm : List.Perm (run1_discovery root pdfs1 walk).queue
      (enqueued_of root (fun p => decide (p ∈ pdfs1)) walk) := by
    simpa using discover_queue_perm root (fun p => decide (p ∈ pdfs1)) walk []
  refine ⟨by rw [hrun2, hdocs1], ?_, by rw [hrun2],
    by rw [hrun2]; simp [converter_worker, init_worker]⟩
  intro x
  rw [hrun2, hconv1, hpre1]
  have hsplit := (docs_perm_pres_append_enqueued root (fun p => decide (p ∈ pdfs1)) walk).mem_iff
    (a := x)
  have hmapq : x ∈ (run1_discovery root pdfs1 walk).queue.map qdoc ↔
      x ∈ (enqueued_of root (fun p => decide (p ∈ pdfs1)) walk).map qdoc :=
    (hqperm.map qdoc).mem_iff
  constructor
  · intro hx
    rcases List.mem_append.mp (hsplit.mp hx) with hl | hr
    · exact Or.inr hl
    · exact Or.inl (hmapq.mpr hr)
  · intro hx
    refine hsplit.mpr (List.mem_append.mpr ?_)
    rcases hx with hl | hr
    · exact Or.inr (hmapq.mp hl)
    · exact Or.inl hr

/-! ### The worker pool as a step relation on a shared state (claim C3) -/

/-- Control point of one worker thread of the pool: ready = about to evaluate
the loop guard while not cq.empty() (main.py line 135); waiting = inside the
blocking cq.get() call (line 136); working i = holding the popped item i
(post, write, append, task_done, lines 137-154); finished = the loop guard
saw an empty queue and the thread returned; crashed = the thread died on an
uncaught exception. -/
inductive WStatus
  | ready
  | waiting
  | working (i : QItem)
  | finished
  | crashed
deriving DecidableEq

/-- Shared state of convert_docs while its pool runs: the queue contents, the
count of unfinished tasks (puts minus task_done calls — what cq.join() waits
on), the lock-protected converted list, and each worker's control point. -/
structure PoolSt where
  queue : List QItem
  unfinished : Nat
  converted : List Str
  pcs : Nat → WStatus

/-- One atomic step of worker w.  The cq.empty() guard and the cq.get() call
of converter_worker are two separate steps with no lock held across them, as
in the source; a get on an empty queue blocks, and since no worker ever puts,
a worker that reaches get after the last item was taken never advances. -/
def pool_step (client : QItem → ConvResult) (s : PoolSt) (w : Nat) : PoolSt :=
  match s.pcs w with
  | .ready =>
    if s.queue.isEmpty then { s with pcs := Function.update s.pcs w .finished }
    else { s with pcs := Function.update s.pcs w .waiting }
  | .waiting =>
    match s.queue with
    | [] => s
    | i :: rest => { s with queue := rest, pcs := Function.update s.pcs w (.working i) }
  | .working i =>
    match client i with
    | .ok => { s with converted := s.converted ++ [qdoc i],
                      unfinished := s.unfinished - 1,
                      pcs := Function.update s.pcs w .ready }
    | .httpErr _ => { s with unfinished := s.unfinished - 1,
                             pcs := Function.update s.pcs w .ready }
    | .timeout => { s with pcs := Function.update s.pcs w .ready }
    | .connError => { s with pcs := Function.update s.pcs w .crashed }
  | .finished => s
  | .crashed => s

/-- Running the pool under an explicit interleaving schedule: at each step
the named worker performs its next atomic action. -/
def pool_run (client : QItem → ConvResult) : PoolSt → List Nat → PoolSt
  | s, [] => s
  | s, w :: t => pool_run client (pool_step client s w) t

theorem pool_run_cons (client : QItem → ConvResult) (s : PoolSt) (w : Nat) (t : List Nat) :
    pool_run client s (w :: t) = pool_run client (pool_step client s w) t := rfl

/-- The pool state right after convert_docs has filled the queue and started
its workers: every worker is at the loop guard and no task is done yet. -/
def init_pool (q : List QItem) : PoolSt := ⟨q, q.length, [], fun _ => WStatus.ready⟩

/-- A schedule in which worker 0 alone pops and processes n items (three
steps each: guard, get, convert) and then sees the empty queue and
terminates. -/
def solo_sched (n : Nat) : List Nat := (List.replicate n [0, 0, 0]).flatten ++ [0]


theorem pool_solo_run :
    ∀ (q : List QItem) (s : PoolSt), s.queue = q → s.pcs 0 = WStatus.ready →
      (pool_run ok_client s (solo_sched q.length)).queue = []
      ∧ (pool_run ok_client s (solo_sched q.length)).unfinished = s.unfinished - q.length
      ∧ (pool_run ok_client s (solo_sched q.length)).converted = s.converted ++ q.map qdoc
      ∧ (pool_run ok_client s (solo_sched q.length)).pcs
          = Function.update s.pcs 0 WStatus.finished := by
  intro q
  induction q with
  | nil =>
    intro s hq h0
    obtain ⟨qu, un, co, pc⟩ := s
    simp only at hq h0
    subst hq
    simp [solo_sched, pool_run, pool_step, h0]
  | cons i rest ih =>
    intro s hq h0
    obtain ⟨qu, un, co, pc⟩ := s
    simp only at hq h0
    subst hq
    have hsched : solo_sched (i :: rest).length = 0 :: 0 :: 0 :: solo_sched rest.length := by
      simp [solo_sched, List.replicate_succ]
    have e1 : pool_step ok_client ⟨i :: rest, un, co, pc⟩ 0
        = ⟨i :: rest, un, co, Function.update pc 0 WStatus.waiting⟩ := by
      simp [pool_step, h0]
    have e2 : pool_step ok_client ⟨i :: rest, un, co, Function.update pc 0 WStatus.waiting⟩ 0
        = ⟨rest, un, co, Function.update pc 0 (WStatus.working i)⟩ := by
      simp [pool_step, Function.update_same, Function.update_idem]
    have e3 : pool_step ok_client ⟨rest, un, co, Function.update pc 0 (WStatus.working i)⟩ 0
        = ⟨rest, un - 1, co ++ [qdoc i], Function.update pc 0 WStatus.ready⟩ := by
      simp [pool_step, ok_client, Function.update_same, Function.update_idem]
    have hstep3 : pool_run ok_client ⟨i :: rest, un, co, pc⟩ (solo_sched (i :: rest).length)
        = pool_run ok_client ⟨rest, un - 1, co ++ [qdoc i], Function.update pc 0 WStatus.ready⟩
            (solo_sched rest.length) := by
      rw [hsched, pool_run_cons, e1, pool_run_cons, e2, pool_run_cons, e3]
    obtain ⟨g1, g2, g3, g4⟩ := ih ⟨rest, un - 1, co ++ [qdoc i], Function.update pc 0 WStatus.ready⟩
      rfl (by simp [Function.update_same])
    rw [hstep3]
    refine ⟨g1, ?_, ?_, ?_⟩
    · rw [g2]
      simp only [List.length_cons]
      omega
    · rw [g3]
      simp
    · rw [g4, Function.update_idem]

theorem pool_step_keeps_blocked (client : QItem → ConvResult) (s : PoolSt) (w : Nat)
    (hq : s.queue = []) (h1 : s.pcs 1 = WStatus.waiting) :
    (pool_step client s w).queue = [] ∧ (pool_step client s w).pcs 1 = WStatus.waiting := by
  by_cases hw : w = 1
  · subst hw
    simp [pool_step, h1, hq]
  · have h1w : (1 : Nat) ≠ w := fun h => hw h.symm
    cases hpc : s.pcs w with
    | ready =>
      constructor
      · simp [pool_step, hpc, hq]
      · simp only [pool_step, hpc, hq, List.isEmpty_nil, if_true]
        rw [Function.update_noteq h1w]
        exact h1
    | waiting =>
      constructor
      · simp [pool_step, hpc, hq]
      · simp only [pool_step, hpc, hq]
        exact h1
    | working i =>
      cases hc : client i with
      | ok =>
        refine ⟨by simp [pool_step, hpc, hc, hq], ?_⟩
        simp only [pool_step, hpc, hc]
        rw [Function.update_noteq h1w]
        exact h1
      | httpErr code =>
        refine ⟨by simp [pool_step, hpc, hc, hq], ?_⟩
        simp only [pool_step, hpc, hc]
        rw [Function.update_noteq h1w]
        exact h1
      | timeout =>
        refine ⟨by simp [pool_step, hpc, hc, hq], ?_⟩
        simp only [pool_step, hpc, hc]
        rw [Function.update_noteq h1w]
        exact h1
      | connError =>
        refine ⟨by simp [pool_step, hpc, hc, hq], ?_⟩
        simp only [pool_step, hpc, hc]
        rw [Function.update_noteq h1w]
        exact h1
    | finished => exact ⟨by simp [pool_step, hpc, hq], by simp [pool_step, hpc]; exact h1⟩
    | crashed => exact ⟨by simp [pool_step, hpc, hq], by simp [pool_step, hpc]; exact h1⟩

theorem pool_run_keeps_blocked (client : QItem → ConvResult) :
    ∀ (sched : List Nat) (s : PoolSt), s.queue = [] → s.pcs 1 = WStatus.waiting →
      (pool_run client s sched).queue = []
      ∧ (pool_run client s sched).pcs 1 = WStatus.waiting := by
  intro sched
  induction sched with
  | nil => intro s hq h1; exact ⟨hq, h1⟩
  | cons w ws ih =>
    intro s hq h1
    obtain ⟨hq', h1'⟩ := pool_step_keeps_blocked client s w hq h1
    exact ih _ hq' h1'

theorem solo_sched_mem : ∀ (n : Nat) (w : Nat), w ∈ solo_sched n → w = 0 := by
  intro n w hw
  unfold solo_sched at hw
  rcases List.mem_append.mp hw with h | h
  · obtain ⟨l, hl, hwl⟩ := List.mem_flatten.mp h
    rw [List.eq_of_mem_replicate hl] at hwl
    simpa using hwl
  · simpa using h

/-- The 1000 enqueued items of claim C3. -/
def c3_items : List QItem :=
  List.replicate 1000 (7, ("f.doc".data, "d".data, "p".data))

set_option maxRecDepth 100000 in
set_option maxHeartbeats 2000000 in
/-- C3 (code bug witness construction): with 8 workers, 1000 enqueued items
and an always-succeeding client, there is an interleaving — worker 1 passes
the while not cq.empty() guard, then worker 0 drains all 1000 items — after
which every item has been converted exactly once (converted has size 1000)
and all 1000 acknowledgments happened, so cq.join() returns (unfinished hits
0 exactly once), yet worker 1 sits inside the blocking cq.get() on the
now-empty queue and stays there under every continuation of the schedule: it
never terminates, so the t.join() loop at main.py lines 124-125 hangs and the
run never prints its report, contrary to the claim that all workers then
terminate and the run reaches its report. -/
theorem c3_worker_can_block_after_drain :
    ∃ sched : List Nat,
      (∀ w ∈ sched, w < 8)
      ∧ (pool_run ok_client (init_pool c3_items) sched).unfinished = 0
      ∧ (pool_run ok_client (init_pool c3_items) sched).converted.length = 1000
      ∧ ∀ more : List Nat,
          (pool_run ok_client (pool_run ok_client (init_pool c3_items) sched) more).pcs 1
            = WStatus.waiting := by
  have hlen : c3_items.length = 1000 := by simp [c3_items]
  have hne : c3_items.isEmpty = false := by
    cases h : c3_items.isEmpty
    · rfl
    · exfalso
      rw [List.isEmpty_iff.mp h] at hlen
      simp at hlen
  refine ⟨1 :: solo_sched c3_items.length, ?_, ?_⟩
  · intro w hw
    rcases List.mem_cons.mp hw with rfl | hw'
    · omega
    · rw [solo_sched_mem _ _ hw']
      omega
  · have e1 : pool_step ok_client (init_pool c3_items) 1
        = ⟨c3_items, c3_items.length, [],
            Function.update (fun _ => WStatus.ready) 1 WStatus.waiting⟩ := by
      simp [pool_step, init_pool, hne]
    obtain ⟨g1, g2, g3, g4⟩ := pool_solo_run c3_items
      ⟨c3_items, c3_items.length, [], Function.update (fun _ => WStatus.ready) 1 WStatus.waiting⟩
      rfl
      (by show Function.update (fun _ => WStatus.ready) 1 WStatus.waiting 0 = WStatus.ready
          rw [Function.update_noteq (by omega : (0 : Nat) ≠ 1)])
    have hone : pool_run ok_client (init_pool c3_items) (1 :: solo_sched c3_items.length)
        = pool_run ok_client
            ⟨c3_items, c3_items.length, [],
              Function.update (fun _ => WStatus.ready) 1 WStatus.waiting⟩
            (solo_sched c3_items.length) := by
      rw [pool_run_cons, e1]
    rw [hone]
    have hpc1 : (pool_run ok_client
        ⟨c3_items, c3_items.length, [],
          Function.update (fun _ => WStatus.ready) 1 WStatus.waiting⟩
        (solo_sched c3_items.length)).pcs 1 = WStatus.waiting := by
      rw [g4, Function.update_noteq (by omega : (1 : Nat) ≠ 0)]
      show Function.update (fun _ => WStatus.ready) 1 WStatus.waiting 1 = WStatus.waiting
      rw [Function.update_same]
    refine ⟨?_, by rw [g3]; simp [hlen], ?_⟩
    · rw [g2]
      show c3_items.length - c3_items.length = 0
      omega
    intro more
    exact (pool_run_keeps_blocked ok_client more _ g1 hpc1).2
